import Mathlib

/-!
Verification of the playlist-ingestion core of an IPTV restreaming server
(`restream.py`): the extended-M3U parser (`parse_extinf`, `parse_m3u`), the
TTL-bounded playlist cache (`get_channels`), the HLS playlist rewriter
(`rewrite_m3u8_playlist`), the per-channel HTTP route handlers, and a
spec-modelled artifact store.  Python strings are embedded as `List Char` /
`String`, Python `-1`-based index results as `Int`, dictionaries as
most-recent-first association lists, exceptions as `Option`, and the mutable
module-level cache as explicitly threaded state.
-/

namespace Restream

/-! ## Python string primitives -/

/-- Characters Python's `str.strip()` removes (ASCII whitespace plus the
common Unicode whitespace the source could meet). -/
def pyIsSpace (c : Char) : Bool :=
  c = ' ' || c = '\t' || c = '\n' || c = '\r' || c = '\x0B' || c = '\x0C' ||
  c = '\x1C' || c = '\x1D' || c = '\x1E' || c = '\x1F' || c = '\u0085' || c = ' '

/-- `str.strip()` on a character list: drop whitespace from both ends. -/
def pyStrip (l : List Char) : List Char :=
  ((l.dropWhile pyIsSpace).reverse.dropWhile pyIsSpace).reverse

/-- `str.strip()` on a `String`. -/
def pyStripStr (s : String) : String :=
  (pyStrip s.toList).asString

/-- Line-boundary characters recognized by Python's `str.splitlines()`. -/
def pyIsLineBreak (c : Char) : Bool :=
  c = '\n' || c = '\r' || c = '\x0B' || c = '\x0C' ||
  c = '\x1C' || c = '\x1D' || c = '\x1E' || c = '\u0085' || c = ' ' || c = ' '

/-- Worker for `str.splitlines()`: `acc` holds the current line reversed.
A `\r\n` pair counts as a single boundary; no trailing empty line is
produced for a trailing newline. -/
def splitlinesAux : List Char → List Char → List (List Char)
  | [], acc => if acc.isEmpty then [] else [acc.reverse]
  | '\r' :: '\n' :: rest, acc => acc.reverse :: splitlinesAux rest []
  | c :: rest, acc =>
    if pyIsLineBreak c then acc.reverse :: splitlinesAux rest []
    else splitlinesAux rest (c :: acc)

/-- `text.splitlines()`. -/
def pySplitlines (s : String) : List String :=
  (splitlinesAux s.toList []).map List.asString

/-- Index of the first occurrence of `c` in `l` (`none` if absent). -/
def findIdx (l : List Char) (c : Char) : Option Nat :=
  match l with
  | [] => none
  | a :: t => if a = c then some 0 else (findIdx t c).map (· + 1)

/-- Python `s.find(c, start)`: first index `≥ start` holding `c`, else `-1`. -/
def pyFindFrom (l : List Char) (c : Char) (start : Nat) : Int :=
  match findIdx (l.drop start) c with
  | some i => ((start + i : Nat) : Int)
  | none => -1

/-- Index of the last occurrence of `c` in `l` (`none` if absent). -/
def rfindIdx (l : List Char) (c : Char) : Option Nat :=
  match l with
  | [] => none
  | a :: t =>
    match rfindIdx t c with
    | some i => some (i + 1)
    | none => if a = c then some 0 else none

/-- Python `s.rfind(c, 0, ed)`: last index `< ed` holding `c`, else `-1`. -/
def pyRFindBefore (l : List Char) (c : Char) (ed : Nat) : Int :=
  match rfindIdx (l.take ed) c with
  | some i => (i : Int)
  | none => -1

/-- Python slice `l[a:b]` for non-negative bounds. -/
def pySlice (l : List Char) (a b : Nat) : List Char :=
  (l.take b).drop a

/-- `s.startswith(t)` (a kernel-reducible replacement for
`String.startsWith`, whose core implementation does not reduce). -/
def strStarts (s t : String) : Bool :=
  t.toList.isPrefixOf s.toList

/-- `s.endswith(t)`. -/
def strEnds (s t : String) : Bool :=
  t.toList.reverse.isPrefixOf s.toList.reverse

/-- `s.lower()` (ASCII case folding, which is all the source compares). -/
def strLower (s : String) : String :=
  (s.toList.map Char.toLower).asString

/-- `s.split(c)` for a one-character separator, keeping empty parts
(Python `str.split` with an explicit separator). -/
def splitChar (l : List Char) (c : Char) : List (List Char) :=
  match l with
  | [] => [[]]
  | a :: t =>
    let r := splitChar t c
    if a = c then [] :: r
    else
      match r with
      | [] => [[a]]
      | h :: t2 => (a :: h) :: t2

/-- `content.split('\n')`. -/
def pySplitNL (s : String) : List String :=
  (splitChar s.toList '\n').map List.asString

/-! ## `parse_extinf` (restream.py lines 64–98) -/

/-- The `while True` attribute scan of `parse_extinf`, with explicit fuel
(the scan position strictly increases every round, so
`left.length + 2` rounds always suffice).  Attributes are accumulated
most-recent-first, so `List.lookup` sees the latest assignment exactly like
a Python `dict`. -/
def scanAttrs (left : List Char) : Nat → Nat → List (String × String) → List (String × String)
  | 0, _, attrs => attrs
  | fuel + 1, pos, attrs =>
    let eq := pyFindFrom left '=' pos
    if eq < 0 then attrs
    else
      let keyEnd := eq.toNat
      let keyStart := max (pyRFindBefore left ' ' keyEnd) (pyRFindBefore left ':' keyEnd)
      let key := (pyStrip (pySlice left (keyStart + 1).toNat keyEnd)).asString
      if left.get? (keyEnd + 1) = some '"' then
        let valStart := keyEnd + 2
        let valEnd := pyFindFrom left '"' valStart
        if valEnd < 0 then attrs
        else
          scanAttrs left fuel (valEnd.toNat + 1)
            ((key, (pySlice left valStart valEnd.toNat).asString) :: attrs)
      else
        let spaceIdx := pyFindFrom left ' ' (keyEnd + 1)
        let valEnd := if spaceIdx < 0 then left.length else spaceIdx.toNat
        scanAttrs left fuel valEnd
          ((key, (pyStrip (pySlice left (keyEnd + 1) valEnd)).asString) :: attrs)

/-- `parse_extinf(line)`: split at the first comma (Python
`line.split(",", 1)`), scan the left part for `key=value` attributes and
strip the right part as the title. -/
def parse_extinf (line : String) : List (String × String) × String :=
  let cs := line.toList
  let commaAt := pyFindFrom cs ',' 0
  let left := if commaAt < 0 then cs else cs.take commaAt.toNat
  let title := if commaAt < 0 then ([] : List Char) else cs.drop (commaAt.toNat + 1)
  (scanAttrs left (left.length + 2) 0 [], (pyStrip title).asString)

/-! ## `parse_m3u` (restream.py lines 100–127) -/

structure Channel where
  title : String
  url : String
  logo : String
  group : String
  tvg_id : String
deriving DecidableEq

/-- The record built at restream.py lines 115–123:
`title or attrs.get("tvg-name") or "Unknown"` and the
`attrs.get(k) or ""` fields. -/
def mkChannel (attrs : List (String × String)) (title : String) (url : String) : Channel :=
  { title :=
      if title ≠ "" then title
      else
        match attrs.lookup "tvg-name" with
        | some v => if v ≠ "" then v else "Unknown"
        | none => "Unknown"
    url := url
    logo := (attrs.lookup "tvg-logo").getD ""
    group := (attrs.lookup "group-title").getD ""
    tvg_id := (attrs.lookup "tvg-id").getD "" }

/-- The index-driven `while` loop of `parse_m3u`, rephrased on the list of
lines: at an `#EXTINF` line the inner scan (`j`) skips every following line
starting with `#` until the first non-`#` line, which (if non-empty, the
Python `if url:` truthiness test) becomes the record's URL; parsing resumes
right after that line (`i = j + 1`).  If the scan exhausts the input, the
loop index jumps past the end and parsing stops.  The fuel argument only
bounds the number of loop iterations — every iteration consumes at least
one line, so `lines.length` is always enough. -/
def parseLines : Nat → List String → List Channel
  | 0, _ => []
  | _ + 1, [] => []
  | fuel + 1, l :: rest =>
    if strStarts l "#EXTINF" then
      match rest.dropWhile (fun s => strStarts s "#") with
      | [] => []
      | u :: rest' =>
        (if u ≠ "" then [mkChannel (parse_extinf l).1 (parse_extinf l).2 u] else [])
          ++ parseLines fuel rest'
    else parseLines fuel rest

/-- `parse_m3u(text)`: strip every line, drop blank lines
(`[l.strip() for l in text.splitlines() if l.strip()]`), then run the loop. -/
def parse_m3u (text : String) : List Channel :=
  let lines := ((pySplitlines text).map pyStripStr).filter (fun l => l ≠ "")
  parseLines lines.length lines

/-! ## Playlist cache (`get_channels`, restream.py lines 21, 25–59, 132–149) -/

def REFRESH_INTERVAL : Int := 1800

/-- The `PLAYLISTS` dict (restream.py lines 25–56). -/
def PLAYLISTS : List (String × String) := [
  ("all", "https://iptv-org.github.io/iptv/index.m3u"),
  ("india", "https://iptv-org.github.io/iptv/countries/in.m3u"),
  ("usa", "https://iptv-org.github.io/iptv/countries/us.m3u"),
  ("uk", "https://iptv-org.github.io/iptv/countries/uk.m3u"),
  ("canada", "https://iptv-org.github.io/iptv/countries/ca.m3u"),
  ("australia", "https://iptv-org.github.io/iptv/countries/au.m3u"),
  ("germany", "https://iptv-org.github.io/iptv/countries/de.m3u"),
  ("france", "https://iptv-org.github.io/iptv/countries/fr.m3u"),
  ("news", "https://iptv-org.github.io/iptv/categories/news.m3u"),
  ("sports", "https://iptv-org.github.io/iptv/categories/sports.m3u"),
  ("entertainment", "https://iptv-org.github.io/iptv/categories/entertainment.m3u"),
  ("kids", "https://iptv-org.github.io/iptv/categories/kids.m3u"),
  ("movies", "https://iptv-org.github.io/iptv/categories/movies.m3u"),
  ("music", "https://iptv-org.github.io/iptv/categories/music.m3u"),
  ("documentary", "https://iptv-org.github.io/iptv/categories/documentary.m3u"),
  ("educational", "https://iptv-org.github.io/iptv/categories/educational.m3u"),
  ("religious", "https://iptv-org.github.io/iptv/categories/religious.m3u"),
  ("shopping", "https://iptv-org.github.io/iptv/categories/shopping.m3u"),
  ("english", "https://iptv-org.github.io/iptv/languages/eng.m3u"),
  ("hindi", "https://iptv-org.github.io/iptv/languages/hin.m3u"),
  ("spanish", "https://iptv-org.github.io/iptv/languages/spa.m3u"),
  ("french", "https://iptv-org.github.io/iptv/languages/fra.m3u"),
  ("german", "https://iptv-org.github.io/iptv/languages/deu.m3u"),
  ("arabic", "https://iptv-org.github.io/iptv/languages/ara.m3u"),
  ("regional", "https://iptv-org.github.io/iptv/categories/regional.m3u"),
  ("comedy", "https://iptv-org.github.io/iptv/categories/comedy.m3u"),
  ("lifestyle", "https://iptv-org.github.io/iptv/categories/lifestyle.m3u"),
  ("business", "https://iptv-org.github.io/iptv/categories/business.m3u"),
  ("travel", "https://iptv-org.github.io/iptv/categories/travel.m3u"),
  ("science", "https://iptv-org.github.io/iptv/categories/science.m3u")]

/-- One value of the `CACHE` dict: `{"time": ts, "channels": [...]}`.
Timestamps are modelled as integer seconds. -/
structure CacheEntry where
  time : Int
  channels : List Channel
deriving DecidableEq

/-- The module-level `CACHE` dict, as a most-recent-first association list. -/
abbrev Cache := List (String × CacheEntry)

/-- `CACHE[name] = entry` (dict overwrite; `List.lookup` sees the newest). -/
def cacheSet (c : Cache) (k : String) (v : CacheEntry) : Cache :=
  (k, v) :: c

/-- The stale/missing path of `get_channels` (restream.py lines 138–149):
look up `PLAYLISTS[name]` (a `KeyError` for an unknown name propagates,
modelled as `none`), then fetch.  `fetchResult` is the oracle for the
`requests.get … resp.text` block: `some text` for a 2xx body, `none` when
anything in the `try` block raises; the `except` branch logs and returns the
empty list, leaving `CACHE` untouched.  The `Bool` records whether a fetch
was attempted. -/
def fetchAndCache (cache : Cache) (now : Int) (name : String) (fetchResult : Option String) :
    Option (List Channel × Cache × Bool) :=
  match PLAYLISTS.lookup name with
  | none => none
  | some _url =>
    match fetchResult with
    | some text =>
      let channels := parse_m3u text
      some (channels, cacheSet cache name ⟨now, channels⟩, true)
    | none => some ([], cache, true)

/-- `get_channels(name)` (restream.py lines 132–149), state-passing: given
the current `CACHE`, the clock `time.time()`, and the fetch oracle, return
the channel list, the new `CACHE`, and whether a fetch was performed
(`none` models the uncaught `KeyError` on an unknown name). -/
def get_channels (cache : Cache) (now : Int) (name : String) (fetchResult : Option String) :
    Option (List Channel × Cache × Bool) :=
  match cache.lookup name with
  | some entry =>
    if now - entry.time < REFRESH_INTERVAL then some (entry.channels, cache, false)
    else fetchAndCache cache now name fetchResult
  | none => fetchAndCache cache now name fetchResult

/-! ## HLS playlist rewriting (`rewrite_m3u8_playlist`, restream.py lines 154–205) -/

/-- Substring test (Python `needle in hay`). -/
def listContainsSub (hay needle : List Char) : Bool :=
  match hay with
  | [] => needle.isEmpty
  | _ :: t => needle.isPrefixOf hay || listContainsSub t needle

/-- Python `needle in hay` on strings. -/
def strContains (hay needle : String) : Bool :=
  listContainsSub hay.toList needle.toList

/-- UTF-8 encoding of a character, as byte values. -/
def utf8Bytes (c : Char) : List Nat :=
  let n := c.toNat
  if n < 0x80 then [n]
  else if n < 0x800 then [0xC0 + n / 64, 0x80 + n % 64]
  else if n < 0x10000 then [0xE0 + n / 4096, 0x80 + n / 64 % 64, 0x80 + n % 64]
  else [0xF0 + n / 262144, 0x80 + n / 4096 % 64, 0x80 + n / 64 % 64, 0x80 + n % 64]

/-- Uppercase hexadecimal digit. -/
def hexDigit (n : Nat) : Char :=
  if n < 10 then Char.ofNat (48 + n) else Char.ofNat (55 + n)

/-- The characters `urllib.parse.quote` never encodes: letters, digits and
`_.-~`. -/
def quoteUnreserved (c : Char) : Bool :=
  c.isAlpha || c.isDigit || c = '_' || c = '.' || c = '-' || c = '~'

/-- `requests.utils.quote(s, safe='')`: percent-encode every UTF-8 byte of
every non-unreserved character, with uppercase hex digits. -/
def pyQuote (s : String) : String :=
  (s.toList.flatMap (fun c =>
    if quoteUnreserved c then [c]
    else (utf8Bytes c).flatMap (fun b => ['%', hexDigit (b / 16), hexDigit (b % 16)]))).asString

/-- `urlparse(u).scheme` and `.netloc` for the ordinary absolute URLs this
program feeds it: the scheme is the text before `"://"` and the netloc runs
from there to the next `/`, `?` or `#` (empty pair when no `"://"`). -/
def urlSchemeNetloc (u : String) : String × String :=
  let cs := u.toList
  match findSub cs "://".toList 0 with
  | none => ("", "")
  | some i =>
    let afterScheme := cs.drop (i + 3)
    ((cs.take i).asString,
     (afterScheme.takeWhile (fun c => c ≠ '/' && c ≠ '?' && c ≠ '#')).asString)
where
  /-- Index of the first occurrence of `pat` in `cs` starting at `i`. -/
  findSub (cs pat : List Char) (i : Nat) : Option Nat :=
    match cs with
    | [] => if pat.isEmpty then some i else none
    | _ :: t => if pat.isPrefixOf cs then some i else findSub t pat (i + 1)

/-- `base_url.rsplit('/', 1)[0]`: everything before the last `/`
(the whole string when there is no `/`). -/
def rsplitSlashHead (s : String) : String :=
  match rfindIdx s.toList '/' with
  | some i => (s.toList.take i).asString
  | none => s

/-- The per-line loop of `rewrite_m3u8_playlist` (restream.py lines
179–203), threading the `base_url` variable, which the relative-line branch
mutates in place (`base_url += '/'`). -/
def rewriteLoop (m3u8_url : String) : List String → String → List String
  | [], _ => []
  | line :: rest, base =>
    let s := pyStripStr line
    if strStarts s "#EXTM3U" then rewriteLoop m3u8_url rest base
    else if strStarts s "#EXT-X-VERSION" then rewriteLoop m3u8_url rest base
    else if strStarts s "#EXT-X-ALLOW-CACHE" then rewriteLoop m3u8_url rest base
    else if strStarts s "#EXT-X-PLAYLIST-TYPE" then rewriteLoop m3u8_url rest base
    else if !strStarts s "#" && s != "" && !strStarts s "http" then
      if strStarts s "/" then
        let sn := urlSchemeNetloc m3u8_url
        ("/proxy-segment/" ++ pyQuote (sn.1 ++ "://" ++ sn.2 ++ s))
          :: rewriteLoop m3u8_url rest base
      else
        let base' := if strEnds base "/" then base else base ++ "/"
        ("/proxy-segment/" ++ pyQuote (base' ++ s)) :: rewriteLoop m3u8_url rest base'
    else if strStarts s "http" then
      ("/proxy-segment/" ++ pyQuote s) :: rewriteLoop m3u8_url rest base
    else line :: rewriteLoop m3u8_url rest base

/-- The pure rewriting core of `rewrite_m3u8_playlist(m3u8_url, base_url)`
applied to the fetched playlist body `content`: strip the final path
segment from a `.m3u8` base, emit the four fixed header lines (VOD when the
body contains `#EXT-X-ENDLIST`, LIVE otherwise), then rewrite
`content.split('\n')` line by line.  The source joins the result with
`'\n'`. -/
def rewrite_m3u8_lines (content m3u8_url base_url : String) : List String :=
  let base1 := if strEnds base_url ".m3u8" then rsplitSlashHead base_url else base_url
  ["#EXTM3U", "#EXT-X-VERSION:3", "#EXT-X-ALLOW-CACHE:NO",
   if strContains content "#EXT-X-ENDLIST" then "#EXT-X-PLAYLIST-TYPE:VOD"
   else "#EXT-X-PLAYLIST-TYPE:LIVE"]
    ++ rewriteLoop m3u8_url (pySplitNL content) base1

/-- The rewritten playlist text (`'\n'.join(rewritten_lines)`). -/
def rewrite_m3u8_playlist (content m3u8_url base_url : String) : String :=
  String.intercalate "\n" (rewrite_m3u8_lines content m3u8_url base_url)

/-- Modelled from the spec (§4.4 of the design, "M3U8 rewrite algorithm"):
"resolve it to an absolute URL (handling absolute, scheme-relative, and
relative-to-playlist-base forms)" — standard URI-reference resolution of a
segment line against the playlist URL: absolute `http…` lines stand,
`//host/path` takes the playlist's scheme, `/path` takes the playlist's
scheme and netloc, and anything else joins the playlist base (the playlist
URL with its final segment removed). -/
def spec_resolveSegmentURI (playlistUrl uri : String) : String :=
  if strStarts uri "http://" || strStarts uri "https://" then uri
  else if strStarts uri "//" then (urlSchemeNetloc playlistUrl).1 ++ ":" ++ uri
  else if strStarts uri "/" then
    let sn := urlSchemeNetloc playlistUrl
    sn.1 ++ "://" ++ sn.2 ++ uri
  else rsplitSlashHead playlistUrl ++ "/" ++ uri

/-- Everything after the first comma of `s` (empty when `s` has no comma),
written independently of `parse_extinf`'s index arithmetic. -/
def afterFirstComma (s : String) : String :=
  ((s.toList.dropWhile (fun c => c ≠ ',')).tail).asString

/-- The base URL with a trailing slash ensured (the effect of the
`if not base_url.endswith('/'): base_url += '/'` mutation). -/
def normBase (b : String) : String :=
  if strEnds b "/" then b else b ++ "/"

/-- What the loop body of `rewrite_m3u8_playlist` makes of one line, given
an already-slash-normalized base (`none` = the line is dropped). -/
def rewriteLineModel (m3u8_url base : String) (line : String) : Option String :=
  let s := pyStripStr line
  if strStarts s "#EXTM3U" then none
  else if strStarts s "#EXT-X-VERSION" then none
  else if strStarts s "#EXT-X-ALLOW-CACHE" then none
  else if strStarts s "#EXT-X-PLAYLIST-TYPE" then none
  else if !strStarts s "#" && s != "" && !strStarts s "http" then
    if strStarts s "/" then
      some ("/proxy-segment/"
        ++ pyQuote ((urlSchemeNetloc m3u8_url).1 ++ "://" ++ (urlSchemeNetloc m3u8_url).2 ++ s))
    else
      some ("/proxy-segment/" ++ pyQuote (base ++ s))
  else if strStarts s "http" then some ("/proxy-segment/" ++ pyQuote s)
  else some line

/-! ## Per-channel HTTP routes (restream.py lines 631–719) -/

/-- What a per-channel Flask handler can produce: an `abort(code)`, a
rendered page / streamed body (carrying the data the template or generator
closes over), or an uncaught exception (which Flask turns into a 500). -/
inductive RouteResult where
  | httpAbort (code : Nat)
  | watchPage (ch : Channel) (group : String) (idx : Int)
  | hlsPlaylist (sourceUrl : String)
  | directStream (sourceUrl : String)
  | audioStream (sourceUrl : String) (group : String) (idx : Int)
  | uncaughtError
deriving DecidableEq

/-- `watch_channel(group, idx)` (restream.py lines 631–639). -/
def watch_channel (cache : Cache) (now : Int) (fetchResult : Option String)
    (group : String) (idx : Int) : RouteResult :=
  if (PLAYLISTS.lookup group).isNone then .httpAbort 404
  else
    match get_channels cache now group fetchResult with
    | none => .uncaughtError
    | some (channels, _, _) =>
      if idx < 0 ∨ (channels.length : Int) ≤ idx then .httpAbort 404
      else
        match channels.get? idx.toNat with
        | some ch => .watchPage ch group idx
        | none => .uncaughtError

/-- The HLS test of `play_channel`:
`'.m3u8' in source_url.lower() or source_url.endswith('.m3u')`. -/
def isHlsUrl (sourceUrl : String) : Bool :=
  strContains (strLower sourceUrl) ".m3u8" || strEnds sourceUrl ".m3u"

/-- `play_channel(group, idx)` (restream.py lines 641–684).  `hlsOk` and
`directOk` are the oracles for the two proxying `try` blocks (whose
`except` branches `abort(502)`). -/
def play_channel (cache : Cache) (now : Int) (fetchResult : Option String)
    (hlsOk directOk : Bool) (group : String) (idx : Int) : RouteResult :=
  if (PLAYLISTS.lookup group).isNone then .httpAbort 404
  else
    match get_channels cache now group fetchResult with
    | none => .uncaughtError
    | some (channels, _, _) =>
      if idx < 0 ∨ (channels.length : Int) ≤ idx then .httpAbort 404
      else
        match channels.get? idx.toNat with
        | some ch =>
          if isHlsUrl ch.url then
            if hlsOk then .hlsPlaylist ch.url else .httpAbort 502
          else
            if directOk then .directStream ch.url else .httpAbort 502
        | none => .uncaughtError

/-- `play_channel_audio(group, idx)` (restream.py lines 695–719). -/
def play_channel_audio (cache : Cache) (now : Int) (fetchResult : Option String)
    (group : String) (idx : Int) : RouteResult :=
  if (PLAYLISTS.lookup group).isNone then .httpAbort 404
  else
    match get_channels cache now group fetchResult with
    | none => .uncaughtError
    | some (channels, _, _) =>
      if idx < 0 ∨ (channels.length : Int) ≤ idx then .httpAbort 404
      else
        match channels.get? idx.toNat with
        | some ch => .audioStream ch.url group idx
        | none => .uncaughtError

end Restream

namespace ArtifactStore

/-!
## Media Artifact Store (spec §4.3, modelled from the spec)

No artifact store exists in `restream.py`; the design document's §4.3
(`ensureArtifact`) is modelled here from the spec's words as an interleaving
transition system over one artifact key: per-key state
`Absent / Producing / Ready(path) / Failed(reason)`, `n` concurrent callers
each atomically evaluating the state under the discovery lock (`Absent`
makes the caller the producer, `Producing` makes it block, a resolved state
is its outcome), and a producer completion step.  Eviction and the
failure cool-down reversion are outside one concurrent batch and have no
step.  `runs` counts production runs (Transcoder invocations).
-/

inductive Outcome where
  | success (path : String)
  | failure (reason : String)
deriving DecidableEq

inductive AState where
  | absent
  | producing
  | ready (path : String)
  | failed (reason : String)
deriving DecidableEq

/-- The control point of one `ensureArtifact` caller. -/
inductive CallerPC where
  | idle
  | waiting
  | owner
  | done (o : Outcome)
deriving DecidableEq

structure Sys where
  st : AState
  callers : List CallerPC
  runs : Nat
deriving DecidableEq

/-- `n` callers about to call `ensureArtifact` on a key in state `Absent`. -/
def initSys (n : Nat) : Sys :=
  ⟨.absent, List.replicate n .idle, 0⟩

/-- The resolved state a finished production leaves behind. -/
def resolve (o : Outcome) : AState :=
  match o with
  | .success p => .ready p
  | .failure e => .failed e

/-- Atomic steps: a caller (idle or blocked) re-evaluates the key state, or
the producing owner completes with some outcome. -/
inductive Step : Sys → Sys → Prop where
  | evalAbsent (s : Sys) (i : Nat)
      (h : s.callers.get? i = some .idle ∨ s.callers.get? i = some .waiting)
      (hst : s.st = .absent) :
      Step s ⟨.producing, s.callers.set i .owner, s.runs + 1⟩
  | evalProducing (s : Sys) (i : Nat)
      (h : s.callers.get? i = some .idle ∨ s.callers.get? i = some .waiting)
      (hst : s.st = .producing) :
      Step s ⟨s.st, s.callers.set i .waiting, s.runs⟩
  | evalReady (s : Sys) (i : Nat) (p : String)
      (h : s.callers.get? i = some .idle ∨ s.callers.get? i = some .waiting)
      (hst : s.st = .ready p) :
      Step s ⟨s.st, s.callers.set i (.done (.success p)), s.runs⟩
  | evalFailed (s : Sys) (i : Nat) (e : String)
      (h : s.callers.get? i = some .idle ∨ s.callers.get? i = some .waiting)
      (hst : s.st = .failed e) :
      Step s ⟨s.st, s.callers.set i (.done (.failure e)), s.runs⟩
  | complete (s : Sys) (i : Nat) (o : Outcome)
      (h : s.callers.get? i = some .owner) :
      Step s ⟨resolve o, s.callers.set i (.done o), s.runs⟩

inductive Reachable (s0 : Sys) : Sys → Prop where
  | refl : Reachable s0 s0
  | tail {s s' : Sys} : Reachable s0 s → Step s s' → Reachable s0 s'

/-- The number of callers currently holding the producer role. -/
def ownerCount : List CallerPC → Nat
  | [] => 0
  | CallerPC.owner :: t => ownerCount t + 1
  | _ :: t => ownerCount t

/-- The inductive invariant: before any production the key is untouched and
every caller idle; while producing there is exactly one owner, one recorded
run, and nobody is done; once resolved, every finished caller carries the
resolved outcome. -/
def Inv (s : Sys) : Prop :=
  match s.st with
  | .absent => s.runs = 0 ∧ ∀ c ∈ s.callers, c = CallerPC.idle
  | .producing => s.runs = 1 ∧ ownerCount s.callers = 1 ∧
      ∀ c ∈ s.callers, c = CallerPC.idle ∨ c = CallerPC.waiting ∨ c = CallerPC.owner
  | .ready p => s.runs = 1 ∧
      ∀ c ∈ s.callers, c = CallerPC.idle ∨ c = CallerPC.waiting ∨
        c = CallerPC.done (.success p)
  | .failed e => s.runs = 1 ∧
      ∀ c ∈ s.callers, c = CallerPC.idle ∨ c = CallerPC.waiting ∨
        c = CallerPC.done (.failure e)

end ArtifactStore

namespace Restream

/-! ## Helper lemmas -/

/-- The first line the URL scan stops at does not satisfy the skip
predicate. -/
theorem dropWhile_head_false {α : Type} (p : α → Bool) :
    ∀ (l : List α) (u : α) (t : List α), l.dropWhile p = u :: t → p u = false := by
  intro l
  induction l with
  | nil => intro u t h; simp [List.dropWhile] at h
  | cons a as ih =>
    intro u t h
    by_cases hp : p a
    · rw [List.dropWhile_cons_of_pos hp] at h
      exact ih u t h
    · rw [List.dropWhile_cons_of_neg hp] at h
      obtain ⟨rfl, rfl⟩ := by simpa using h
      simpa using hp

/-- Skipping a block of lines that all satisfy the predicate. -/
theorem dropWhile_append_all {α : Type} (p : α → Bool) :
    ∀ (pre : List α) (u : α) (t : List α), (∀ x ∈ pre, p x = true) → p u = false →
      (pre ++ u :: t).dropWhile p = u :: t := by
  intro pre
  induction pre with
  | nil => intro u t _ hu; simp [List.dropWhile, hu]
  | cons a as ih =>
    intro u t hall hu
    have ha : p a = true := hall a (by simp)
    rw [List.cons_append, List.dropWhile_cons_of_pos ha]
    exact ih u t (fun x hx => hall x (by simp [hx])) hu

/-- The title field of every built record is non-empty. -/
theorem mkChannel_title_ne (attrs : List (String × String)) (title url : String) :
    (mkChannel attrs title url).title ≠ "" := by
  simp only [mkChannel]
  split
  · assumption
  · split
    · split
      · assumption
      · simp
    · simp

/-! ## C6: the concrete parsing scenario -/

/-- C6: parsing the playlist text
`#EXTM3U\n#EXTINF:-1 tvg-logo="http://x/logo.png" group-title="News",Channel One\nhttp://x/stream1.m3u8\n`
yields exactly one record with title `Channel One`, url
`http://x/stream1.m3u8`, logo `http://x/logo.png` and group `News`. -/
theorem C6_scenario_parse :
    parse_m3u "#EXTM3U\n#EXTINF:-1 tvg-logo=\"http://x/logo.png\" group-title=\"News\",Channel One\nhttp://x/stream1.m3u8\n" =
      [{ title := "Channel One", url := "http://x/stream1.m3u8",
         logo := "http://x/logo.png", group := "News", tvg_id := "" }] := by
  decide

/-! ## C2: a directive with no URL before the next directive -/

/-- C2 counterexample: in
`#EXTINF:-1,A\n#EXTINF:-1,B\nhttp://u` the first directive has no
non-comment line before the next directive, yet it does NOT contribute zero
records — it captures `http://u` (the second entry's URL) as its own, and
the second entry vanishes instead of being parsed normally. -/
theorem C2_counterexample :
    parse_m3u "#EXTINF:-1,A\n#EXTINF:-1,B\nhttp://u"
        = [{ title := "A", url := "http://u", logo := "", group := "", tvg_id := "" }] ∧
    parse_m3u "#EXTINF:-1,A\n#EXTINF:-1,B\nhttp://u"
        ≠ [{ title := "B", url := "http://u", logo := "", group := "", tvg_id := "" }] := by
  decide

/-- C2 amended: a directive line followed by no non-comment line anywhere
before the end of input contributes zero records, silently and without
error; but when a non-comment, non-empty line exists later — even past
intervening directive lines — the directive captures that line as its URL,
and the intervening `#`-starting lines (directives included) are skipped. -/
theorem C2_amended_incomplete_entry
    (fuel fuel2 : Nat) (l l2 u : String) (pre rest' rest2 : List String)
    (hl : strStarts l "#EXTINF" = true)
    (hpre : ∀ x ∈ pre, strStarts x "#" = true)
    (hu : strStarts u "#" = false) (hune : u ≠ "")
    (hl2 : strStarts l2 "#EXTINF" = true)
    (hrest2 : ∀ x ∈ rest2, strStarts x "#" = true) :
    parseLines (fuel + 1) (l :: (pre ++ u :: rest'))
        = mkChannel (parse_extinf l).1 (parse_extinf l).2 u :: parseLines fuel rest' ∧
    parseLines fuel2 (l2 :: rest2) = [] := by
  constructor
  · rw [parseLines, if_pos hl,
      dropWhile_append_all (fun s => strStarts s "#") pre u rest' hpre hu]
    simp [hune]
  · match fuel2 with
    | 0 => rfl
    | fuel2 + 1 =>
      rw [parseLines, if_pos hl2, List.dropWhile_eq_nil_iff.mpr (by simpa using hrest2)]

/-- C2 witness: the amended statement at the counterexample's input and at
a lone trailing directive. -/
theorem C2_witness :
    parseLines 3 ["#EXTINF:-1,A", "#EXTINF:-1,B", "http://u"]
        = mkChannel (parse_extinf "#EXTINF:-1,A").1 (parse_extinf "#EXTINF:-1,A").2 "http://u"
            :: parseLines 2 [] ∧
    parseLines 2 ["#EXTINF:-1,B", "#comment"] = [] :=
  C2_amended_incomplete_entry 2 2 "#EXTINF:-1,A" "#EXTINF:-1,B" "http://u"
    ["#EXTINF:-1,B"] [] ["#comment"]
    (by decide) (by decide) (by decide) (by decide) (by decide) (by decide)

/-! ## C4: the title rule -/

/-- The first-occurrence index computed by `findIdx` locates the same
suffix as dropping up to the first comma. -/
theorem findIdx_dropWhile (cs : List Char) :
    (match findIdx cs ',' with
     | some i => cs.drop (i + 1)
     | none => ([] : List Char)) = (cs.dropWhile (fun c => c ≠ ',')).tail := by
  induction cs with
  | nil => rfl
  | cons a t ih =>
    by_cases ha : a = ','
    · subst ha; simp [findIdx, List.dropWhile]
    · cases hf : findIdx t ',' with
      | none =>
        rw [hf] at ih
        simp at ih
        simp [findIdx, ha, hf, List.dropWhile_cons, ih]
      | some i =>
        rw [hf] at ih
        simp at ih
        simp [findIdx, ha, hf, List.dropWhile_cons, List.drop_succ_cons, ih]

/-- The index-arithmetic comma split of `parse_extinf` computes the suffix
after the first comma. -/
theorem commaSplit_eq_dropWhile (cs : List Char) :
    (if pyFindFrom cs ',' 0 < 0 then ([] : List Char)
     else cs.drop ((pyFindFrom cs ',' 0).toNat + 1))
      = (cs.dropWhile (fun c => c ≠ ',')).tail := by
  have h := findIdx_dropWhile cs
  rw [pyFindFrom, List.drop_zero]
  cases hf : findIdx cs ',' with
  | none => rw [hf] at h; simpa using h
  | some i => rw [hf] at h; simpa using h

/-- C4 counterexample: in `#EXTINF:-1 tvg-name="A,B",T` the first top-level
comma not inside quotes precedes `T`, but `parse_extinf` splits at the
first comma anywhere — inside the quoted `tvg-name` value — and returns the
title `B",T`, not `T`. -/
theorem C4_counterexample :
    (parse_extinf "#EXTINF:-1 tvg-name=\"A,B\",T").2 = "B\",T" ∧
    ("B\",T" : String) ≠ "T" := by
  decide

/-- C4 amended: the title produced by `parse_extinf` is everything after
the first comma anywhere in the line (a comma inside a quoted attribute
value also ends the attribute part), stripped; when the line has no comma
the title is empty, and the record built from it falls back to the
`tvg-name` attribute when that is present and non-empty, and otherwise to
the literal `"Unknown"`. -/
theorem C4_amended_title_rule (line url : String) :
    (parse_extinf line).2 = pyStripStr (afterFirstComma line) ∧
    (',' ∉ line.toList →
      (mkChannel (parse_extinf line).1 (parse_extinf line).2 url).title =
        match ((parse_extinf line).1).lookup "tvg-name" with
        | some v => if v ≠ "" then v else "Unknown"
        | none => "Unknown") := by
  have hsplit : (parse_extinf line).2 = pyStripStr (afterFirstComma line) := by
    show (pyStrip (if pyFindFrom line.toList ',' 0 < 0 then ([] : List Char)
      else line.toList.drop ((pyFindFrom line.toList ',' 0).toNat + 1))).asString = _
    rw [commaSplit_eq_dropWhile]
    rfl
  refine ⟨hsplit, fun hnc => ?_⟩
  have hdw : line.toList.dropWhile (fun c => c ≠ ',') = [] := by
    rw [List.dropWhile_eq_nil_iff]
    intro x hx
    have hxne : x ≠ ',' := fun h => hnc (h ▸ hx)
    simpa using hxne
  have hempty : (parse_extinf line).2 = "" := by
    rw [hsplit, afterFirstComma, hdw]
    rfl
  rw [mkChannel]
  simp [hempty]

/-- C4 witness: the amended title rule at a comma-free line carrying a
`tvg-name` attribute. -/
theorem C4_witness :
    (parse_extinf "#EXTINF:-1 tvg-name=\"NameAttr\"").2
        = pyStripStr (afterFirstComma "#EXTINF:-1 tvg-name=\"NameAttr\"") ∧
    (mkChannel (parse_extinf "#EXTINF:-1 tvg-name=\"NameAttr\"").1
        (parse_extinf "#EXTINF:-1 tvg-name=\"NameAttr\"").2 "http://u").title =
      match ((parse_extinf "#EXTINF:-1 tvg-name=\"NameAttr\"").1).lookup "tvg-name" with
      | some v => if v ≠ "" then v else "Unknown"
      | none => "Unknown" :=
  ⟨(C4_amended_title_rule "#EXTINF:-1 tvg-name=\"NameAttr\"" "http://u").1,
   (C4_amended_title_rule "#EXTINF:-1 tvg-name=\"NameAttr\"" "http://u").2 (by decide)⟩

/-! ## C5: unmatched opening quote -/

/-- C5: when the attribute scan of `parse_extinf` meets a `key="…` whose
opening quote has no closing quote in the rest of the line (the next `=` is
at `eqn`, the character after it is `"`, and no `"` occurs from `eqn + 2`
on), the scan stops at that point: the remaining line content is discarded
and the attributes accumulated so far are returned unchanged.  No exception
is possible: `scanAttrs` and `parse_extinf` are total functions. -/
theorem C5_unmatched_quote_stops_scan
    (left : List Char) (fuel pos eqn : Nat) (attrs : List (String × String))
    (h1 : pyFindFrom left '=' pos = (eqn : Int))
    (h2 : left.get? (eqn + 1) = some '"')
    (h3 : pyFindFrom left '"' (eqn + 2) = -1) :
    scanAttrs left (fuel + 1) pos attrs = attrs := by
  rw [scanAttrs]
  simp only [h1]
  rw [if_neg (by omega)]
  simp only [Int.toNat_natCast, h2, if_pos rfl, h3]
  rfl

/-- C5 witness: the scan of `a="x` (opening quote, never closed) keeps the
attributes accumulated so far. -/
theorem C5_witness :
    scanAttrs "a=\"x".toList 5 0 [("k", "v")] = [("k", "v")] :=
  C5_unmatched_quote_stops_scan "a=\"x".toList 4 0 1 [("k", "v")]
    (by decide) (by decide) (by decide)

/-! ## C1: stale cache entry with a failing fetch -/

/-- C1 counterexample: a cached entry for `news` holds one channel and is
exactly TTL-old (stale); the fetch fails (`none`), and `get_channels`
returns the empty list — not the previous (stale) cached channel list. -/
theorem C1_counterexample :
    get_channels [("news", ⟨0, [⟨"T", "http://u", "", "", ""⟩]⟩)] 1800 "news" none
        = some ([], [("news", ⟨0, [⟨"T", "http://u", "", "", ""⟩]⟩)], true) ∧
    ([] : List Channel) ≠ [⟨"T", "http://u", "", "", ""⟩] := by
  decide

/-- C1 amended: for every source name known to `PLAYLISTS`, when the cached
entry's age has reached the TTL and the fresh fetch (or parse) fails,
`get_channels` returns the empty sequence and leaves the cache unchanged,
regardless of the prior cached entry — the stale channel list is never
served. -/
theorem C1_amended_stale_fetch_failure
    (cache : Cache) (now : Int) (name url : String) (entry : CacheEntry)
    (hc : cache.lookup name = some entry)
    (hstale : REFRESH_INTERVAL ≤ now - entry.time)
    (hk : PLAYLISTS.lookup name = some url) :
    get_channels cache now name none = some ([], cache, true) := by
  have hlt : ¬ (now - entry.time < REFRESH_INTERVAL) := by omega
  simp only [get_channels, hc, if_neg hlt, fetchAndCache, hk]

/-- C1 witness: the amended behaviour at the counterexample's cache. -/
theorem C1_witness :
    get_channels [("news", ⟨0, [⟨"T", "http://u", "", "", ""⟩]⟩)] 2000 "news" none
      = some ([], [("news", ⟨0, [⟨"T", "http://u", "", "", ""⟩]⟩)], true) :=
  C1_amended_stale_fetch_failure _ 2000 "news"
    "https://iptv-org.github.io/iptv/categories/news.m3u" ⟨0, [⟨"T", "http://u", "", "", ""⟩]⟩
    (by decide) (by decide) (by decide)

/-! ## C7: fresh cache hit -/

/-- C7: when the cached entry's age is strictly below the TTL of 1800
seconds, `get_channels` returns that entry's channel list immediately, the
cache is left entirely unchanged, and no fetch is performed (the `Bool`
fetch flag is `false`). -/
theorem C7_fresh_cache_hit
    (cache : Cache) (now : Int) (name : String) (entry : CacheEntry)
    (fetchResult : Option String)
    (hc : cache.lookup name = some entry)
    (hfresh : now - entry.time < REFRESH_INTERVAL) :
    get_channels cache now name fetchResult = some (entry.channels, cache, false) := by
  simp only [get_channels, hc, if_pos hfresh]

/-- C7 witness: a fresh hit on a one-entry cache. -/
theorem C7_witness :
    get_channels [("news", ⟨0, [⟨"T", "http://u", "", "", ""⟩]⟩)] 1799 "news" none
      = some ([⟨"T", "http://u", "", "", ""⟩],
          [("news", ⟨0, [⟨"T", "http://u", "", "", ""⟩]⟩)], false) :=
  C7_fresh_cache_hit _ 1799 "news" ⟨0, [⟨"T", "http://u", "", "", ""⟩]⟩ none
    (by decide) (by decide)

/-! ## C10: invariants of every parsed record -/

/-- Every record the line loop emits has a non-empty URL that does not
start with `#`, and a non-empty title.  (All five fields are `String`s by
the type of `Channel`.) -/
theorem parseLines_record_inv :
    ∀ (fuel : Nat) (lst : List String) (c : Channel), c ∈ parseLines fuel lst →
      c.url ≠ "" ∧ strStarts c.url "#" = false ∧ c.title ≠ "" := by
  intro fuel
  induction fuel with
  | zero => intro lst c hc; simp [parseLines] at hc
  | succ fuel ih =>
    intro lst c hc
    match lst with
    | [] => simp [parseLines] at hc
    | l :: rest =>
      rw [parseLines] at hc
      by_cases hl : strStarts l "#EXTINF"
      · rw [if_pos hl] at hc
        match hdw : rest.dropWhile (fun s => strStarts s "#") with
        | [] => rw [hdw] at hc; simp at hc
        | u :: rest' =>
          rw [hdw] at hc
          rcases List.mem_append.mp hc with hleft | hright
          · by_cases hu : u = ""
            · simp [hu] at hleft
            · rw [if_pos (by simpa using hu)] at hleft
              rw [List.mem_singleton] at hleft
              subst hleft
              refine ⟨hu, ?_, mkChannel_title_ne _ _ _⟩
              exact dropWhile_head_false _ rest u rest' hdw
          · exact ih rest' c hright
      · rw [if_neg hl] at hc
        exact ih rest c hc

/-- C10: every record returned by `parse_m3u` has all five fields present
as strings (by the `Channel` type), a non-empty `url` field that does not
start with `#`, and a non-empty `title` (at worst the literal
`"Unknown"`). -/
theorem C10_record_invariants (text : String) (c : Channel) (hc : c ∈ parse_m3u text) :
    c.url ≠ "" ∧ strStarts c.url "#" = false ∧ c.title ≠ "" :=
  parseLines_record_inv _ _ c hc

/-- C10 witness: the invariants at the record of the C6 scenario. -/
theorem C10_witness :
    ("http://x/stream1.m3u8" : String) ≠ "" ∧
    strStarts "http://x/stream1.m3u8" "#" = false ∧
    ("Channel One" : String) ≠ "" :=
  C10_record_invariants
    "#EXTM3U\n#EXTINF:-1 tvg-logo=\"http://x/logo.png\" group-title=\"News\",Channel One\nhttp://x/stream1.m3u8\n"
    ⟨"Channel One", "http://x/stream1.m3u8", "http://x/logo.png", "News", ""⟩
    (by decide)

/-! ## C9: 404 on unknown source or out-of-range index -/

/-- C9: for every per-channel route (watch, play, play-audio), an unknown
source name, or a channel index out of bounds of the channel list the
handler resolves, yields exactly `abort(404)` — never an uncaught
exception. -/
theorem C9_routes_404
    (cache : Cache) (now : Int) (fetchResult : Option String) (hlsOk directOk : Bool)
    (group : String) (idx : Int)
    (h : PLAYLISTS.lookup group = none ∨
         ∃ chans c2 b, get_channels cache now group fetchResult = some (chans, c2, b) ∧
           (idx < 0 ∨ (chans.length : Int) ≤ idx)) :
    watch_channel cache now fetchResult group idx = .httpAbort 404 ∧
    play_channel cache now fetchResult hlsOk directOk group idx = .httpAbort 404 ∧
    play_channel_audio cache now fetchResult group idx = .httpAbort 404 := by
  rcases h with hg | ⟨chans, c2, b, hgc, hoob⟩
  · have hn : (PLAYLISTS.lookup group).isNone = true := by rw [hg]; rfl
    refine ⟨?_, ?_, ?_⟩ <;>
      simp [watch_channel, play_channel, play_channel_audio, hn]
  · by_cases hk : (PLAYLISTS.lookup group).isNone
    · refine ⟨?_, ?_, ?_⟩ <;>
        simp [watch_channel, play_channel, play_channel_audio, hk]
    · refine ⟨?_, ?_, ?_⟩ <;>
        simp [watch_channel, play_channel, play_channel_audio, hk, hgc, if_pos hoob]

/-- C9 witness: an unknown source name, and a known source with an
out-of-range index on an empty resolved list, both get 404 on all three
routes. -/
theorem C9_witness :
    (watch_channel [] 0 none "nosuch" 0 = .httpAbort 404 ∧
     play_channel [] 0 none true true "nosuch" 0 = .httpAbort 404 ∧
     play_channel_audio [] 0 none "nosuch" 0 = .httpAbort 404) ∧
    (watch_channel [] 0 none "news" 5 = .httpAbort 404 ∧
     play_channel [] 0 none true true "news" 5 = .httpAbort 404 ∧
     play_channel_audio [] 0 none "news" 5 = .httpAbort 404) :=
  ⟨C9_routes_404 [] 0 none true true "nosuch" 0 (Or.inl (by decide)),
   C9_routes_404 [] 0 none true true "news" 5
     (Or.inr ⟨[], [], true, by decide, Or.inr (by decide)⟩)⟩

/-! ## C8: the segment-line rewrite -/

/-- Appending a slash yields a string ending in a slash. -/
theorem strEnds_append_slash (b : String) : strEnds (b ++ "/") "/" = true := by
  show (("/" : String).toList.reverse.isPrefixOf (b ++ "/").toList.reverse) = true
  have h : (b ++ "/").toList = b.toList ++ ['/'] := rfl
  rw [h, List.reverse_append]
  simp [List.isPrefixOf]

/-- Slash-normalization is idempotent. -/
theorem normBase_idem (b : String) : normBase (normBase b) = normBase b := by
  by_cases hb : strEnds b "/"
  · have h1 : normBase b = b := by rw [normBase, if_pos hb]
    rw [h1]
    exact h1
  · have h1 : normBase b = b ++ "/" := by rw [normBase, if_neg hb]
    rw [h1, normBase, if_pos (strEnds_append_slash b)]

/-- The threaded loop computes the per-line model pointwise against the
normalized base: the in-place `base_url += '/'` mutation is invisible
because normalization is idempotent. -/
theorem rewriteLoop_eq_filterMap (m3u8_url : String) :
    ∀ (lines : List String) (base : String),
      rewriteLoop m3u8_url lines base
        = lines.filterMap (rewriteLineModel m3u8_url (normBase base)) := by
  intro lines
  induction lines with
  | nil => intro base; rfl
  | cons line rest ih =>
    intro base
    rw [rewriteLoop, List.filterMap_cons]
    simp only [rewriteLineModel, normBase]
    split_ifs with h1 h2 h3 h4 h5 h6 h7 <;>
      simp_all [ih, normBase, normBase_idem, strEnds_append_slash]

/-- C8 counterexample: for the playlist at `http://a.example/pl.m3u8`
containing the scheme-relative segment line `//cdn.example.com/seg.ts`, the
rewriter emits the proxy path for
`http://a.example//cdn.example.com/seg.ts` — the line is treated as
root-relative — instead of the correct absolute URL
`http://cdn.example.com/seg.ts`. -/
theorem C8_counterexample :
    (rewrite_m3u8_lines "//cdn.example.com/seg.ts" "http://a.example/pl.m3u8"
        "http://a.example/pl.m3u8").get? 4
      = some ("/proxy-segment/" ++ pyQuote "http://a.example//cdn.example.com/seg.ts") ∧
    ("/proxy-segment/" ++ pyQuote "http://a.example//cdn.example.com/seg.ts")
      ≠ ("/proxy-segment/"
          ++ pyQuote (spec_resolveSegmentURI "http://a.example/pl.m3u8"
              "//cdn.example.com/seg.ts")) := by
  decide

/-- C8 amended: after the four fixed header lines, the rewriter maps each
line of the fetched body pointwise: the playlist-type headers of the
original body are dropped; every non-comment, non-empty content line
becomes `/proxy-segment/` followed by the percent-encoding (no safe
characters) of an absolute URL, where an `http…` line stands as is, a line
starting with `/` — including a scheme-relative `//host/path` line, which
is treated as root-relative — is prefixed with `scheme://netloc` of the
playlist URL, and any other line is joined to the playlist base (the
`base_url` argument with its last path segment dropped when it ends in
`.m3u8`, then a trailing slash ensured); all remaining lines pass through
unchanged. -/
theorem C8_amended_rewrite_mapping (content m3u8_url base_url : String) :
    rewrite_m3u8_lines content m3u8_url base_url
      = ["#EXTM3U", "#EXT-X-VERSION:3", "#EXT-X-ALLOW-CACHE:NO",
         if strContains content "#EXT-X-ENDLIST" then "#EXT-X-PLAYLIST-TYPE:VOD"
         else "#EXT-X-PLAYLIST-TYPE:LIVE"]
        ++ (pySplitNL content).filterMap
            (rewriteLineModel m3u8_url
              (normBase (if strEnds base_url ".m3u8" then rsplitSlashHead base_url
                else base_url))) := by
  rw [rewrite_m3u8_lines, rewriteLoop_eq_filterMap]

end Restream

namespace ArtifactStore

/-! ### Positional list helpers -/

theorem get?_some_mem {α : Type} : ∀ (l : List α) (i : Nat) (x : α),
    l.get? i = some x → x ∈ l := by
  intro l
  induction l with
  | nil => intro i x h; cases i <;> exact absurd h (by simp)
  | cons a t ih =>
    intro i x h
    match i with
    | 0 =>
      have hx : a = x := Option.some.inj h
      subst hx
      exact List.mem_cons_self a t
    | i + 1 =>
      exact List.mem_cons_of_mem _ (ih i x h)

theorem get?_some_lt {α : Type} : ∀ (l : List α) (i : Nat) (x : α),
    l.get? i = some x → i < l.length := by
  intro l
  induction l with
  | nil => intro i x h; cases i <;> exact absurd h (by simp)
  | cons a t ih =>
    intro i x h
    match i with
    | 0 => simp
    | i + 1 =>
      exact Nat.succ_lt_succ (ih i x h)

theorem mem_set_or {α : Type} : ∀ (l : List α) (i : Nat) (x c : α),
    c ∈ l.set i x → c = x ∨ c ∈ l := by
  intro l
  induction l with
  | nil => intro i x c h; simp at h
  | cons a t ih =>
    intro i x c h
    match i with
    | 0 =>
      rcases List.mem_cons.mp h with h | h
      · exact Or.inl h
      · exact Or.inr (List.mem_cons_of_mem _ h)
    | i + 1 =>
      rcases List.mem_cons.mp h with h | h
      · exact Or.inr (by simp [h])
      · rcases ih i x c h with h | h
        · exact Or.inl h
        · exact Or.inr (List.mem_cons_of_mem _ h)

theorem ownerCount_cons (a : CallerPC) (t : List CallerPC) :
    ownerCount (a :: t) = ownerCount t + (if a = CallerPC.owner then 1 else 0) := by
  cases a <;> simp [ownerCount]

theorem ownerCount_zero_of_no_owner : ∀ (l : List CallerPC),
    (∀ c ∈ l, c ≠ CallerPC.owner) → ownerCount l = 0 := by
  intro l
  induction l with
  | nil => intro _; rfl
  | cons a t ih =>
    intro h
    rw [ownerCount_cons, if_neg (h a (by simp)), ih (fun c hc => h c (List.mem_cons_of_mem _ hc))]

theorem ownerCount_zero_not_mem : ∀ (l : List CallerPC),
    ownerCount l = 0 → CallerPC.owner ∉ l := by
  intro l
  induction l with
  | nil => intro _ h; simp at h
  | cons a t ih =>
    intro h hmem
    rw [ownerCount_cons] at h
    rcases List.mem_cons.mp hmem with ha | ha
    · rw [← ha] at h; simp at h
    · exact ih (by omega) ha

theorem ownerCount_pos_of_mem : ∀ (l : List CallerPC),
    CallerPC.owner ∈ l → 1 ≤ ownerCount l := by
  intro l
  induction l with
  | nil => intro h; simp at h
  | cons a t ih =>
    intro hmem
    rw [ownerCount_cons]
    rcases List.mem_cons.mp hmem with ha | ha
    · rw [← ha]; simp
    · have := ih ha; omega

theorem mem_of_ownerCount_pos : ∀ (l : List CallerPC),
    1 ≤ ownerCount l → CallerPC.owner ∈ l := by
  intro l
  induction l with
  | nil => intro h; simp [ownerCount] at h
  | cons a t ih =>
    intro h
    by_cases ha : a = CallerPC.owner
    · rw [ha]; exact List.mem_cons_self _ _
    · rw [ownerCount_cons, if_neg ha] at h
      exact List.mem_cons_of_mem _ (ih (by omega))

theorem ownerCount_set_owner_of_zero : ∀ (l : List CallerPC) (i : Nat),
    ownerCount l = 0 → i < l.length → ownerCount (l.set i CallerPC.owner) = 1 := by
  intro l
  induction l with
  | nil => intro i _ h; simp at h
  | cons a t ih =>
    intro i h0 hi
    rw [ownerCount_cons] at h0
    match i with
    | 0 =>
      have h0t : ownerCount t = 0 := by
        by_cases ha : a = CallerPC.owner
        · rw [if_pos ha] at h0; omega
        · rw [if_neg ha] at h0; omega
      show ownerCount (CallerPC.owner :: t) = 1
      rw [ownerCount_cons, if_pos rfl]
      omega
    | i + 1 =>
      have h0t : ownerCount t = 0 := by
        by_cases ha : a = CallerPC.owner
        · rw [if_pos ha] at h0; omega
        · rw [if_neg ha] at h0; omega
      have han : a ≠ CallerPC.owner := by
        intro ha
        rw [if_pos ha] at h0
        omega
      show ownerCount (a :: t.set i CallerPC.owner) = 1
      rw [ownerCount_cons, if_neg han, ih i h0t (by simpa using hi)]

theorem ownerCount_set_nonowner : ∀ (l : List CallerPC) (i : Nat) (b x : CallerPC),
    l.get? i = some b → b ≠ CallerPC.owner → x ≠ CallerPC.owner →
      ownerCount (l.set i x) = ownerCount l := by
  intro l
  induction l with
  | nil => intro i b x h _ _; cases i <;> exact absurd h (by simp)
  | cons a t ih =>
    intro i b x hg hb hx
    match i with
    | 0 =>
      have ha : a = b := Option.some.inj hg
      show ownerCount (x :: t) = ownerCount (a :: t)
      rw [ownerCount_cons, ownerCount_cons, if_neg hx, if_neg (ha ▸ hb)]
    | i + 1 =>
      show ownerCount (a :: t.set i x) = ownerCount (a :: t)
      rw [ownerCount_cons, ownerCount_cons, ih i b x hg hb hx]

theorem mem_set_unique_owner : ∀ (l : List CallerPC) (i : Nat) (x c : CallerPC),
    l.get? i = some CallerPC.owner → ownerCount l = 1 → c ∈ l.set i x →
      c = x ∨ (c ∈ l ∧ c ≠ CallerPC.owner) := by
  intro l
  induction l with
  | nil => intro i x c h _ _; cases i <;> exact absurd h (by simp)
  | cons a t ih =>
    intro i x c hg h1 hc
    match i with
    | 0 =>
      have ha : a = CallerPC.owner := Option.some.inj hg
      rw [ownerCount_cons, if_pos ha] at h1
      have ht : ownerCount t = 0 := by omega
      rcases List.mem_cons.mp hc with h | h
      · exact Or.inl h
      · refine Or.inr ⟨List.mem_cons_of_mem _ h, ?_⟩
        intro hcown
        exact ownerCount_zero_not_mem t ht (hcown ▸ h)
    | i + 1 =>
      have howner : CallerPC.owner ∈ t := get?_some_mem t i _ hg
      have hpos := ownerCount_pos_of_mem t howner
      rw [ownerCount_cons] at h1
      have ha : a ≠ CallerPC.owner := by
        intro h
        rw [if_pos h] at h1
        omega
      rw [if_neg ha] at h1
      rcases List.mem_cons.mp hc with h | h
      · exact Or.inr ⟨by simp [h], h ▸ ha⟩
      · rcases ih i x c hg (by omega) h with h | h
        · exact Or.inl h
        · exact Or.inr ⟨List.mem_cons_of_mem _ h.1, h.2⟩

/-! ### The invariant is inductive along every step -/

theorem inv_init (n : Nat) : Inv (initSys n) := by
  refine ⟨rfl, ?_⟩
  intro c hc
  exact List.eq_of_mem_replicate hc

theorem inv_step {s s' : Sys} (hinv : Inv s) (hst : Step s s') : Inv s' := by
  cases hst with
  | evalAbsent i h habs =>
    simp only [Inv, habs] at hinv
    obtain ⟨hruns, hall⟩ := hinv
    have hidle : s.callers.get? i = some CallerPC.idle := by
      rcases h with h | h
      · exact h
      · have := hall _ (get?_some_mem _ _ _ h)
        exact absurd this (by simp)
    have hoc : ownerCount s.callers = 0 :=
      ownerCount_zero_of_no_owner _ (fun c hc => by rw [hall c hc]; simp)
    simp only [Inv]
    refine ⟨by omega, ?_, ?_⟩
    · exact ownerCount_set_owner_of_zero _ _ hoc (get?_some_lt _ _ _ hidle)
    · intro c hc
      rcases mem_set_or _ _ _ _ hc with h | h
      · exact Or.inr (Or.inr h)
      · exact Or.inl (hall c h)
  | evalProducing i h hprod =>
    simp only [Inv, hprod] at hinv ⊢
    obtain ⟨hruns, hoc, hmem⟩ := hinv
    refine ⟨hruns, ?_, ?_⟩
    · rcases h with h | h
      · rw [ownerCount_set_nonowner _ _ _ _ h (by simp) (by simp)]; exact hoc
      · rw [ownerCount_set_nonowner _ _ _ _ h (by simp) (by simp)]; exact hoc
    · intro c hc
      rcases mem_set_or _ _ _ _ hc with hcw | hcw
      · exact Or.inr (Or.inl hcw)
      · exact hmem c hcw
  | evalReady i p h hready =>
    simp only [Inv, hready] at hinv ⊢
    obtain ⟨hruns, hmem⟩ := hinv
    refine ⟨hruns, ?_⟩
    intro c hc
    rcases mem_set_or _ _ _ _ hc with hcw | hcw
    · exact Or.inr (Or.inr hcw)
    · exact hmem c hcw
  | evalFailed i e h hfailed =>
    simp only [Inv, hfailed] at hinv ⊢
    obtain ⟨hruns, hmem⟩ := hinv
    refine ⟨hruns, ?_⟩
    intro c hc
    rcases mem_set_or _ _ _ _ hc with hcw | hcw
    · exact Or.inr (Or.inr hcw)
    · exact hmem c hcw
  | complete i o h =>
    have howner : CallerPC.owner ∈ s.callers := get?_some_mem _ _ _ h
    cases hst2 : s.st with
    | absent =>
      simp only [Inv, hst2] at hinv
      exact absurd (hinv.2 _ howner) (by simp)
    | producing =>
      simp only [Inv, hst2] at hinv
      obtain ⟨hruns, hoc, hmem⟩ := hinv
      cases o with
      | success p =>
        simp only [Inv, resolve]
        refine ⟨hruns, ?_⟩
        intro c hc
        rcases mem_set_unique_owner _ _ _ _ h hoc hc with hcw | ⟨hcmem, hcno⟩
        · exact Or.inr (Or.inr hcw)
        · rcases hmem c hcmem with h1 | h1 | h1
          · exact Or.inl h1
          · exact Or.inr (Or.inl h1)
          · exact absurd h1 hcno
      | failure e =>
        simp only [Inv, resolve]
        refine ⟨hruns, ?_⟩
        intro c hc
        rcases mem_set_unique_owner _ _ _ _ h hoc hc with hcw | ⟨hcmem, hcno⟩
        · exact Or.inr (Or.inr hcw)
        · rcases hmem c hcmem with h1 | h1 | h1
          · exact Or.inl h1
          · exact Or.inr (Or.inl h1)
          · exact absurd h1 hcno
    | ready p =>
      simp only [Inv, hst2] at hinv
      rcases hinv.2 _ howner with h1 | h1 | h1 <;> exact absurd h1 (by simp)
    | failed e =>
      simp only [Inv, hst2] at hinv
      rcases hinv.2 _ howner with h1 | h1 | h1 <;> exact absurd h1 (by simp)

theorem reach_inv {n : Nat} {s : Sys} (hr : Reachable (initSys n) s) : Inv s := by
  induction hr with
  | refl => exact inv_init n
  | tail _ hstep ih => exact inv_step ih hstep

theorem step_length {s s' : Sys} (h : Step s s') :
    s'.callers.length = s.callers.length := by
  cases h <;> simp

theorem reach_length {n : Nat} {s : Sys} (h : Reachable (initSys n) s) :
    s.callers.length = n := by
  induction h with
  | refl => simp [initSys]
  | tail _ hstep ih => rw [step_length hstep, ih]

end ArtifactStore

namespace ArtifactStore

/-- C3 (spec-modelled): in every interleaved execution in which `n > 0`
callers of `ensureArtifact` for one key (initially `Absent`) have all
finished, exactly one production run was triggered, and every caller
observed the same outcome — the same final path on success, or the same
failure. -/
theorem C3_single_producer_same_outcome (n : Nat) (hn : 0 < n) (s : Sys)
    (hr : Reachable (initSys n) s)
    (hdone : ∀ c ∈ s.callers, ∃ o, c = CallerPC.done o) :
    s.runs = 1 ∧ ∃ o, ∀ c ∈ s.callers, c = CallerPC.done o := by
  have hinv : Inv s := reach_inv hr
  have hlen : s.callers.length = n := reach_length hr
  have hne : s.callers ≠ [] := by
    intro h
    rw [h] at hlen
    simp at hlen
    omega
  obtain ⟨c0, hc0⟩ := List.exists_mem_of_ne_nil _ hne
  cases hst2 : s.st with
  | absent =>
    simp only [Inv, hst2] at hinv
    obtain ⟨o, ho⟩ := hdone c0 hc0
    rw [hinv.2 c0 hc0] at ho
    exact absurd ho (by simp)
  | producing =>
    simp only [Inv, hst2] at hinv
    obtain ⟨_, hoc, _⟩ := hinv
    have hmem : CallerPC.owner ∈ s.callers := mem_of_ownerCount_pos _ (by omega)
    obtain ⟨o, ho⟩ := hdone _ hmem
    exact absurd ho (by simp)
  | ready p =>
    simp only [Inv, hst2] at hinv
    refine ⟨hinv.1, ⟨Outcome.success p, ?_⟩⟩
    intro c hc
    obtain ⟨o, ho⟩ := hdone c hc
    rcases hinv.2 c hc with h | h | h
    · rw [h] at ho; exact absurd ho (by simp)
    · rw [h] at ho; exact absurd ho (by simp)
    · exact h
  | failed e =>
    simp only [Inv, hst2] at hinv
    refine ⟨hinv.1, ⟨Outcome.failure e, ?_⟩⟩
    intro c hc
    obtain ⟨o, ho⟩ := hdone c hc
    rcases hinv.2 c hc with h | h | h
    · rw [h] at ho; exact absurd ho (by simp)
    · rw [h] at ho; exact absurd ho (by simp)
    · exact h

/-- C3 witness: the two-step execution in which one caller produces
successfully, ending with every caller holding the produced path and one
recorded run. -/
theorem C3_witness :
    (⟨AState.ready "out.mp4", [CallerPC.done (Outcome.success "out.mp4")], 1⟩ : Sys).runs = 1 ∧
    ∃ o, ∀ c ∈ (⟨AState.ready "out.mp4",
        [CallerPC.done (Outcome.success "out.mp4")], 1⟩ : Sys).callers,
      c = CallerPC.done o :=
  C3_single_producer_same_outcome 1 (by decide)
    ⟨AState.ready "out.mp4", [CallerPC.done (Outcome.success "out.mp4")], 1⟩
    (Reachable.tail
      (Reachable.tail Reachable.refl
        (Step.evalAbsent (initSys 1) 0 (Or.inl rfl) rfl))
      (Step.complete
        ⟨AState.producing, (initSys 1).callers.set 0 CallerPC.owner, (initSys 1).runs + 1⟩ 0
        (Outcome.success "out.mp4") rfl))
    (by
      intro c hc
      rw [List.mem_singleton] at hc
      exact ⟨Outcome.success "out.mp4", hc⟩)

end ArtifactStore
